import Mathlib

/-!
A verification development for the applyFlow job-discovery backend
(`src/api/jobs.js` and `src/api/ai.js`).  The JavaScript source is shallowly
embedded: JS strings become `String`, JS numbers in the pipeline are `Int`
(timestamps in milliseconds), external effects (HTTP fetch, authentication)
are injected as oracle parameters, and the database/throttle cache is explicit
state.  The regular expressions used by the scraper are embedded as a small
pattern AST evaluated by a backtracking matcher with JavaScript semantics
(leftmost match, greedy/lazy quantifiers, case-insensitive flag).
-/

namespace ApplyFlow

/-! ## JavaScript string primitives -/

/-- ASCII case folding, as used by `String.prototype.toLowerCase` on the
ASCII data this pipeline handles. -/
def jsToLower (s : String) : String := ⟨s.data.map Char.toLower⟩

/-- Does `pat` occur at the head of `s`? -/
def leadMatch : List Char → List Char → Bool
  | [], _ => true
  | _ :: _, [] => false
  | p :: ps, c :: cs => p == c && leadMatch ps cs

/-- `String.prototype.includes`: substring containment (empty pattern always
matches, as in JavaScript). -/
def jsIncludesL (pat : List Char) : List Char → Bool
  | [] => leadMatch pat []
  | c :: cs => leadMatch pat (c :: cs) || jsIncludesL pat cs

def jsIncludes (s pat : String) : Bool := jsIncludesL pat.data s.data

/-- The whitespace set recognised by `\s` and `String.prototype.trim`
(common ASCII whitespace plus NBSP). -/
def isJsWs (c : Char) : Bool :=
  c == ' ' || c == '\t' || c == '\n' || c == '\r' || c == '\x0b' || c == '\x0c' || c == ' '

/-- `String.prototype.trim`. -/
def jsTrimL (l : List Char) : List Char :=
  ((l.dropWhile isJsWs).reverse.dropWhile isJsWs).reverse

def jsTrim (s : String) : String := ⟨jsTrimL s.data⟩

/-- `String.prototype.replace` with a plain-string pattern: replaces the
first occurrence only. -/
def jsReplaceFirstL (pat repl : List Char) : List Char → List Char
  | [] => []
  | c :: cs =>
    if leadMatch pat (c :: cs) then repl ++ (c :: cs).drop pat.length
    else c :: jsReplaceFirstL pat repl cs

def jsReplaceFirst (s pat repl : String) : String :=
  ⟨jsReplaceFirstL pat.data repl.data s.data⟩

/-- `parseInt` on a string of decimal digits (the only use in the source:
the digits captured by `(\d+)`). -/
def parseDigits (l : List Char) : Nat :=
  l.foldl (fun acc c => acc * 10 + (c.toNat - '0'.toNat)) 0

/-- `String.prototype.split(',')` (every split in the source uses the
separator `','`): `"".split(',')` is `[""]`, separators at the ends produce
empty segments. -/
def splitCommaAux (acc : List Char) : List Char → List String
  | [] => [⟨acc.reverse⟩]
  | c :: rest =>
    if c == ',' then ⟨acc.reverse⟩ :: splitCommaAux [] rest
    else splitCommaAux (c :: acc) rest

def jsSplitComma (s : String) : List String := splitCommaAux [] s.data

/-- `String.prototype.startsWith`. -/
def jsStartsWith (s pat : String) : Bool := leadMatch pat.data s.data

/-! ## A small backtracking regex engine

The scraper's regular expressions are embedded as `Pat` values (one
constructor per JS regex construct that appears in the source) and evaluated
by a CPS backtracking matcher with JavaScript semantics: alternatives are
tried left to right, `star false` is greedy and `star true` is lazy, an
iteration of a quantifier that consumes nothing terminates the loop, `look`
is a zero-width lookahead, and `eos` is the `$` anchor.  The matcher carries
the (single) capture group used by each source pattern.  Recursion is fuelled;
the fuel supplied by the entry points is far above the maximal backtracking
depth `(size + 2) * (length + 2)`, so the fuelled function agrees with the
unbounded semantics. -/

inductive Pat where
  | eps
  | lit (c : Char)
  | cls (neg : Bool) (ranges : List (Char × Char))
  | seq (p q : Pat)
  | alt (p q : Pat)
  | star (lazy : Bool) (p : Pat)
  | group (p : Pat)
  | look (p : Pat)
  | eos
deriving Repr

/-- Number of AST nodes, used to compute a sufficient fuel. -/
def Pat.size : Pat → Nat
  | .eps => 1
  | .lit _ => 1
  | .cls _ _ => 1
  | .seq p q => 1 + p.size + q.size
  | .alt p q => 1 + p.size + q.size
  | .star _ p => 1 + p.size
  | .group p => 1 + p.size
  | .look p => 1 + p.size
  | .eos => 1

/-- Character comparison; with the `/i` flag both sides are case folded. -/
def charEq (ci : Bool) (a b : Char) : Bool :=
  if ci then a.toLower == b.toLower else a == b

/-- Character-class membership; with `/i` the input character is case folded
(class endpoints are stored lower case). -/
def clsMatch (ci : Bool) (neg : Bool) (ranges : List (Char × Char)) (a : Char) : Bool :=
  let a := if ci then a.toLower else a
  let inside := ranges.any fun r => decide (r.1 ≤ a) && decide (a ≤ r.2)
  if neg then !inside else inside

/-- A match continuation: remaining input and current capture of group 1. -/
abbrev MatchRes := Option (List Char × Option (List Char))

/-- The backtracking matcher.  `mat ci fuel p s cap k` attempts to match `p`
at the head of `s` and passes the remainder and capture to `k`. -/
def mat (ci : Bool) : Nat → Pat → List Char →
    Option (List Char) → (List Char → Option (List Char) → MatchRes) → MatchRes
  | 0, _, _, _, _ => none
  | fuel + 1, p, s, cap, k =>
    match p with
    | .eps => k s cap
    | .lit c =>
      match s with
      | [] => none
      | a :: rest => if charEq ci a c then k rest cap else none
    | .cls neg ranges =>
      match s with
      | [] => none
      | a :: rest => if clsMatch ci neg ranges a then k rest cap else none
    | .seq p1 p2 => mat ci fuel p1 s cap fun s1 c1 => mat ci fuel p2 s1 c1 k
    | .alt p1 p2 =>
      (mat ci fuel p1 s cap k).orElse fun _ => mat ci fuel p2 s cap k
    | .star lazy p1 =>
      let deeper := fun (_ : Unit) =>
        mat ci fuel p1 s cap fun s1 c1 =>
          if s1.length < s.length then mat ci fuel (.star lazy p1) s1 c1 k else none
      if lazy then (k s cap).orElse deeper else (deeper ()).orElse fun _ => k s cap
    | .group p1 =>
      mat ci fuel p1 s cap fun s1 _ => k s1 (some (s.take (s.length - s1.length)))
    | .look p1 =>
      match mat ci fuel p1 s cap fun s1 c1 => some (s1, c1) with
      | some _ => k s cap
      | none => none
    | .eos =>
      match s with
      | [] => k s cap
      | _ :: _ => none

/-- Fuel that dominates the depth of any matcher run of `p` on `s`. -/
def fuelFor (p : Pat) (s : List Char) : Nat := (p.size + 2) * (s.length + 2)

/-- Try to match `p` exactly at the head of `s`.  Returns the consumed
characters, the capture of group 1, and the remaining input. -/
def tryMatchAt (ci : Bool) (p : Pat) (s : List Char) :
    Option (List Char × Option (List Char) × List Char) :=
  match mat ci (fuelFor p s) p s none fun s1 c1 => some (s1, c1) with
  | some (s1, c1) => some (s.take (s.length - s1.length), c1, s1)
  | none => none

/-- Leftmost match: try each start position from the left, as the JS engine
does for `String.prototype.match` without `/g`. -/
def searchFrom (ci : Bool) (p : Pat) : List Char →
    Option (List Char × Option (List Char) × List Char)
  | [] => tryMatchAt ci p []
  | c :: cs =>
    (tryMatchAt ci p (c :: cs)).orElse fun _ => searchFrom ci p cs

/-- `String.prototype.match` without the `/g` flag: the full text of the first
match together with capture group 1. -/
def jsMatchFirst (ci : Bool) (p : Pat) (s : String) : Option (String × Option String) :=
  match searchFrom ci p s.data with
  | some (full, cap, _) => some (⟨full⟩, cap.map fun l => ⟨l⟩)
  | none => none

/-- Worker for the `/g` flag: repeatedly take the leftmost match and resume
after it (advancing one character after an empty match). -/
def searchAll (ci : Bool) (p : Pat) : Nat → List Char → List (List Char)
  | 0, _ => []
  | fuel + 1, s =>
    match searchFrom ci p s with
    | none => []
    | some (full, _, rest) =>
      if full.isEmpty then
        full :: (match rest with
          | [] => []
          | _ :: t => searchAll ci p fuel t)
      else full :: searchAll ci p fuel rest

/-- `String.prototype.match` with the `/g` flag: the list of the full texts of
all matches (`null` becomes the empty list, as the source immediately
replaces `null` by `[]`). -/
def jsMatchAll (ci : Bool) (p : Pat) (s : String) : List String :=
  (searchAll ci p (s.length + 1) s.data).map fun l => ⟨l⟩

/-- `group m` is `m?.[1] || ''`: the text of capture group 1, or `""` when
the match failed or the group is empty. -/
def matchGroup1 (m : Option (String × Option String)) : String :=
  match m with
  | some (_, some g) => g
  | _ => ""

/-! ### Pattern-building helpers -/

def plit (s : String) : Pat := s.data.foldr (fun c acc => .seq (.lit c) acc) .eps

def pseq (l : List Pat) : Pat := l.foldr .seq .eps

/-- `[\s\S]` — any character. -/
def anyChar : Pat := .cls true []

/-- `.` — any character except a line terminator. -/
def dotChar : Pat := .cls true [('\n', '\n'), ('\r', '\r')]

/-- `[^"]` -/
def notQuote : Pat := .cls true [('"', '"')]

/-- `[^>]` -/
def notGt : Pat := .cls true [('>', '>')]

/-- `[a-z]` -/
def lowerAlpha : Pat := .cls false [('a', 'z')]

/-- `\d` -/
def digitCls : Pat := .cls false [('0', '9')]

/-- `\s` -/
def wsCls : Pat :=
  .cls false [(' ', ' '), ('\t', '\t'), ('\n', '\n'), ('\r', '\r'), ('\x0b', '\x0b'), ('\x0c', '\x0c')]

def gstar (p : Pat) : Pat := .star false p

def lstar (p : Pat) : Pat := .star true p

/-- `+` (greedy): one occurrence followed by a greedy star. -/
def gplus (p : Pat) : Pat := .seq p (gstar p)

/-! ## `cleanText` (jobs.js 264-273)

Each `.replace` of the source is transliterated: global tag removal
`/<[^>]+>/g`, the four literal entity replacements, whitespace collapsing
`/\s+/g`, and a final trim. -/

/-- One global pass of `.replace(/<[^>]+>/g, '')`: at a `<` that is followed
by at least one non-`>` character and a closing `>`, drop through the `>`;
otherwise keep the character.  Structurally fuelled; every step consumes at
least one character, so `length + 1` fuel is always sufficient. -/
def stripTagsAux : Nat → List Char → List Char
  | 0, l => l
  | _ + 1, [] => []
  | fuel + 1, c :: rest =>
    if c == '<' && !(rest.takeWhile (fun d => d != '>')).isEmpty
        && !(rest.dropWhile (fun d => d != '>')).isEmpty then
      stripTagsAux fuel (rest.dropWhile (fun d => d != '>')).tail
    else c :: stripTagsAux fuel rest

def stripTags (l : List Char) : List Char := stripTagsAux (l.length + 1) l

/-- `.replace(/lit/g, repl)` for a non-empty literal `lit`; the replacement
text is not rescanned.  Structurally fuelled as above. -/
def jsReplaceAllAux (pat repl : List Char) : Nat → List Char → List Char
  | 0, l => l
  | _ + 1, [] => []
  | fuel + 1, c :: rest =>
    if leadMatch pat (c :: rest) then
      repl ++ jsReplaceAllAux pat repl fuel ((c :: rest).drop pat.length)
    else c :: jsReplaceAllAux pat repl fuel rest

def jsReplaceAllL (pat repl l : List Char) : List Char :=
  jsReplaceAllAux pat repl (l.length + 1) l

/-- `.replace(/\s+/g, ' ')`.  Structurally fuelled as above. -/
def collapseWsAux : Nat → List Char → List Char
  | 0, l => l
  | _ + 1, [] => []
  | fuel + 1, c :: rest =>
    if isJsWs c then ' ' :: collapseWsAux fuel (rest.dropWhile isJsWs)
    else c :: collapseWsAux fuel rest

def collapseWs (l : List Char) : List Char := collapseWsAux (l.length + 1) l

/-- `cleanText` (jobs.js 264-273): strip tags, decode the four entities,
collapse whitespace, trim. -/
def cleanText (rawText : String) : String :=
  let t := stripTags rawText.data
  let t := jsReplaceAllL "&amp;".data "&".data t
  let t := jsReplaceAllL "&lt;".data "<".data t
  let t := jsReplaceAllL "&gt;".data ">".data t
  let t := jsReplaceAllL "&nbsp;".data " ".data t
  let t := collapseWs t
  ⟨jsTrimL t⟩

/-! ## The scraper's regular expressions (jobs.js 164-298) -/

/-- `/<div[^>]*class="[^"]*job_seen_beacon[^"]*"[^>]*>/` — the opening part of
the job-card pattern. -/
def beaconOpen : Pat :=
  pseq [plit "<div", gstar notGt, plit "class=\"", gstar notQuote,
    plit "job_seen_beacon", gstar notQuote, plit "\"", gstar notGt, plit ">"]

/-- `/<div[^>]*class="[^"]*job_seen_beacon[^"]*"/` — the body of the
lookahead in the job-card pattern. -/
def beaconAhead : Pat :=
  pseq [plit "<div", gstar notGt, plit "class=\"", gstar notQuote,
    plit "job_seen_beacon", gstar notQuote, plit "\""]

/-- jobs.js 169: the `/gi` job-card pattern
`<div[^>]*class="[^"]*job_seen_beacon[^"]*"[^>]*>([\s\S]*?)(?=<div[^>]*class="[^"]*job_seen_beacon[^"]*"|$)`. -/
def jobCardPat : Pat :=
  pseq [beaconOpen, .group (lstar anyChar), .look (.alt beaconAhead .eos)]

/-- jobs.js 195: `/class="jobTitle[^"]*"[^>]*>[\s\S]*?<span[^>]*>(.*?)<\/span>/i`. -/
def titlePat : Pat :=
  pseq [plit "class=\"jobTitle", gstar notQuote, plit "\"", gstar notGt, plit ">",
    lstar anyChar, plit "<span", gstar notGt, plit ">", .group (lstar dotChar), plit "</span>"]

/-- jobs.js 199: `/class="companyName"[^>]*>([\s\S]*?)<\/[a-z]+>/i`. -/
def companyPat : Pat :=
  pseq [plit "class=\"companyName\"", gstar notGt, plit ">",
    .group (lstar anyChar), plit "</", gplus lowerAlpha, plit ">"]

/-- jobs.js 203: `/class="companyLocation"[^>]*>([\s\S]*?)<\/div>/i`. -/
def locationPat : Pat :=
  pseq [plit "class=\"companyLocation\"", gstar notGt, plit ">",
    .group (lstar anyChar), plit "</div>"]

/-- jobs.js 207: `/href="(\/rc\/clk[^"]+)"/i`. -/
def linkPat : Pat :=
  pseq [plit "href=\"", .group (pseq [plit "/rc/clk", gplus notQuote]), plit "\""]

/-- jobs.js 212: `/class="[^"]*job-snippet[^"]*"[^>]*>([\s\S]*?)<\/div>/i`. -/
def snippetPat : Pat :=
  pseq [plit "class=\"", gstar notQuote, plit "job-snippet", gstar notQuote,
    plit "\"", gstar notGt, plit ">", .group (lstar anyChar), plit "</div>"]

/-- jobs.js 216: `/class="date[^"]*"[^>]*>([\s\S]*?)<\/span>/i`. -/
def datePat : Pat :=
  pseq [plit "class=\"date", gstar notQuote, plit "\"", gstar notGt, plit ">",
    .group (lstar anyChar), plit "</span>"]

/-- jobs.js 284: `/(\d+)\s*day/`. -/
def dayPat : Pat := pseq [.group (gplus digitCls), gstar wsCls, plit "day"]

/-- jobs.js 291: `/(\d+)\s*hour/`. -/
def hourPat : Pat := pseq [.group (gplus digitCls), gstar wsCls, plit "hour"]

/-! ## `parseRelativeDate` (jobs.js 276-298)

Time is modelled as an integer count of milliseconds; the source's
`setDate`/`setHours` arithmetic is modelled as fixed-length day/hour
subtraction.  The current time is injected (`now`) instead of read from a
global clock. -/

def parseRelativeDate (dateText : String) (now : Int) : Int :=
  let lowerText := jsToLower dateText
  if jsIncludes lowerText "today" || jsIncludes lowerText "just posted"
      || jsIncludes lowerText "active" then
    now
  else
    match jsMatchFirst false dayPat lowerText with
    | some m =>
      match m.2 with
      | some d => now - (parseDigits d.data : Int) * 86400000
      | none => now
    | none =>
      match jsMatchFirst false hourPat lowerText with
      | some m =>
        match m.2 with
        | some d => now - (parseDigits d.data : Int) * 3600000
        | none => now
      | none => now

/-! ## `extractJobDataFromCard` (jobs.js 193-229) -/

/-- The canonical job-posting shape produced by the scraper. -/
structure RawJob where
  title : String
  company : String
  location : String
  link : String
  descriptionSnippet : String
  postedDate : Int
  source : String
deriving Repr, DecidableEq

def extractJobDataFromCard (cardHtml : String) (now : Int) : RawJob :=
  let title := cleanText (matchGroup1 (jsMatchFirst true titlePat cardHtml))
  let company := cleanText (matchGroup1 (jsMatchFirst true companyPat cardHtml))
  let location := cleanText (matchGroup1 (jsMatchFirst true locationPat cardHtml))
  let relativeLink := matchGroup1 (jsMatchFirst true linkPat cardHtml)
  let link := if relativeLink != "" then "https://www.indeed.com" ++ relativeLink else ""
  let descriptionSnippet := cleanText (matchGroup1 (jsMatchFirst true snippetPat cardHtml))
  let postedDateText := cleanText (matchGroup1 (jsMatchFirst true datePat cardHtml))
  let postedDate := parseRelativeDate postedDateText now
  { title := title, company := company, location := location, link := link,
    descriptionSnippet := descriptionSnippet, postedDate := postedDate, source := "Indeed" }

/-! ## JSON values and `JSON.parse`

Used by `safeJsonParse` (ai.js 243-256) and by the embedded-blob fallback of
the scraper (jobs.js 232-261).  Numbers are modelled as exact rationals (the
float rounding performed by the JS engine is not modelled); `\uXXXX` escapes
go through `Char.ofNat`, so unpaired surrogates are not modelled. -/

inductive Json where
  | null
  | bool (b : Bool)
  | num (q : ℚ)
  | str (s : String)
  | arr (elements : List Json)
  | obj (fields : List (String × Json))
deriving Repr

def jsonWsChar (c : Char) : Bool := c == ' ' || c == '\t' || c == '\n' || c == '\r'

def hexVal (c : Char) : Option Nat :=
  if '0' ≤ c ∧ c ≤ '9' then some (c.toNat - '0'.toNat)
  else if 'a' ≤ c ∧ c ≤ 'f' then some (c.toNat - 'a'.toNat + 10)
  else if 'A' ≤ c ∧ c ≤ 'F' then some (c.toNat - 'A'.toNat + 10)
  else none

/-- JSON string body (after the opening quote), with the JSON escapes. -/
def parseJStringAux (acc : List Char) : List Char → Except String (String × List Char)
  | [] => .error "unterminated string"
  | '"' :: rest => .ok (⟨acc.reverse⟩, rest)
  | '\\' :: e :: rest =>
    match e with
    | '"' => parseJStringAux ('"' :: acc) rest
    | '\\' => parseJStringAux ('\\' :: acc) rest
    | '/' => parseJStringAux ('/' :: acc) rest
    | 'b' => parseJStringAux ('\x08' :: acc) rest
    | 'f' => parseJStringAux ('\x0c' :: acc) rest
    | 'n' => parseJStringAux ('\n' :: acc) rest
    | 'r' => parseJStringAux ('\r' :: acc) rest
    | 't' => parseJStringAux ('\t' :: acc) rest
    | 'u' =>
      match rest with
      | a :: b :: c :: d :: rest2 =>
        match hexVal a, hexVal b, hexVal c, hexVal d with
        | some x, some y, some z, some w =>
          parseJStringAux (Char.ofNat (((x * 16 + y) * 16 + z) * 16 + w) :: acc) rest2
        | _, _, _, _ => .error "bad unicode escape"
      | _ => .error "bad unicode escape"
    | _ => .error "bad escape"
  | '\\' :: [] => .error "unterminated escape"
  | c :: rest =>
    if c.toNat < 32 then .error "control character in string"
    else parseJStringAux (c :: acc) rest

def digitChar (c : Char) : Bool := decide ('0' ≤ c) && decide (c ≤ '9')

def digitsToNat (l : List Char) : Nat :=
  l.foldl (fun a c => a * 10 + (c.toNat - '0'.toNat)) 0

/-- A JSON number literal: `-? (0 | [1-9][0-9]*) (\.[0-9]+)? ([eE][+-]?[0-9]+)?`. -/
def parseJNumber (l : List Char) : Except String (ℚ × List Char) :=
  let signAndRest : Bool × List Char :=
    match l with
    | '-' :: t => (true, t)
    | _ => (false, l)
  let neg := signAndRest.1
  let l1 := signAndRest.2
  let intDigits := l1.takeWhile digitChar
  let rest1 := l1.dropWhile digitChar
  if intDigits.isEmpty then .error "invalid number"
  else if intDigits.length > 1 && intDigits.headD '0' == '0' then .error "leading zero"
  else
    let fracAndRest : List Char × List Char :=
      match rest1 with
      | '.' :: t => (t.takeWhile digitChar, t.dropWhile digitChar)
      | _ => ([], rest1)
    let fracDigits := fracAndRest.1
    let rest2 := fracAndRest.2
    if (match rest1 with | '.' :: _ => fracDigits.isEmpty | _ => false) then
      .error "invalid fraction"
    else
      let expAndRest : Bool × Bool × List Char × List Char :=
        match rest2 with
        | 'e' :: t | 'E' :: t =>
          match t with
          | '+' :: t2 => (true, false, t2.takeWhile digitChar, t2.dropWhile digitChar)
          | '-' :: t2 => (true, true, t2.takeWhile digitChar, t2.dropWhile digitChar)
          | _ => (true, false, t.takeWhile digitChar, t.dropWhile digitChar)
        | _ => (false, false, [], rest2)
      let hasExp := expAndRest.1
      let expNeg := expAndRest.2.1
      let expDigits := expAndRest.2.2.1
      let rest3 := expAndRest.2.2.2
      if hasExp && expDigits.isEmpty then .error "invalid exponent"
      else
        let mantissa : Int := (digitsToNat (intDigits ++ fracDigits) : Int)
        let mantissa := if neg then -mantissa else mantissa
        let e : Int :=
          (if expNeg then -(digitsToNat expDigits : Int) else (digitsToNat expDigits : Int))
            - (fracDigits.length : Int)
        .ok ((mantissa : ℚ) * (10 : ℚ) ^ e, rest3)

/-- The three grammatical contexts of the recursive-descent JSON parser:
a single value, the items of a non-empty array, or the fields of a
non-empty object. -/
inductive JKind where
  | value
  | items
  | fields

/-- The corresponding parse results. -/
inductive JPiece where
  | val (v : Json)
  | items (vs : List Json)
  | fields (fs : List (String × Json))

/-- Recursive-descent JSON parser.  The fuel decreases at every recursive
call; every recursive call follows the consumption of at least one input
character, so `length + 2` fuel is always sufficient. -/
def parseJ : Nat → JKind → List Char → Except String (JPiece × List Char)
  | 0, _, _ => .error "input too deep"
  | fuel + 1, .value, l0 =>
    let l := l0.dropWhile jsonWsChar
    match l with
    | [] => .error "unexpected end of input"
    | 'n' :: rest =>
      if leadMatch "ull".data rest then .ok (.val .null, rest.drop 3) else .error "bad literal"
    | 't' :: rest =>
      if leadMatch "rue".data rest then .ok (.val (.bool true), rest.drop 3)
      else .error "bad literal"
    | 'f' :: rest =>
      if leadMatch "alse".data rest then .ok (.val (.bool false), rest.drop 4)
      else .error "bad literal"
    | '"' :: rest =>
      match parseJStringAux [] rest with
      | .ok (str, rest2) => .ok (.val (.str str), rest2)
      | .error e => .error e
    | '[' :: rest =>
      match rest.dropWhile jsonWsChar with
      | ']' :: rest2 => .ok (.val (.arr []), rest2)
      | rest1 =>
        match parseJ fuel .items rest1 with
        | .ok (.items vs, rest2) => .ok (.val (.arr vs), rest2)
        | .ok (_, _) => .error "internal"
        | .error e => .error e
    | '\x7b' :: rest =>
      match rest.dropWhile jsonWsChar with
      | '\x7d' :: rest2 => .ok (.val (.obj []), rest2)
      | rest1 =>
        match parseJ fuel .fields rest1 with
        | .ok (.fields fs, rest2) => .ok (.val (.obj fs), rest2)
        | .ok (_, _) => .error "internal"
        | .error e => .error e
    | _ =>
      match parseJNumber l with
      | .ok (q, rest) => .ok (.val (.num q), rest)
      | .error e => .error e
  | fuel + 1, .items, l =>
    match parseJ fuel .value l with
    | .error e => .error e
    | .ok (.val v, rest) =>
      (match rest.dropWhile jsonWsChar with
      | ',' :: rest2 =>
        match parseJ fuel .items rest2 with
        | .ok (.items vs, rest3) => .ok (.items (v :: vs), rest3)
        | .ok (_, _) => .error "internal"
        | .error e => .error e
      | ']' :: rest2 => .ok (.items [v], rest2)
      | _ => .error "expected comma or closing bracket")
    | .ok (_, _) => .error "internal"
  | fuel + 1, .fields, l0 =>
    match l0.dropWhile jsonWsChar with
    | '"' :: rest =>
      match parseJStringAux [] rest with
      | .error e => .error e
      | .ok (key, rest1) =>
        match rest1.dropWhile jsonWsChar with
        | ':' :: rest2 =>
          (match parseJ fuel .value rest2 with
          | .error e => .error e
          | .ok (.val v, rest3) =>
            (match rest3.dropWhile jsonWsChar with
            | ',' :: rest4 =>
              match parseJ fuel .fields rest4 with
              | .ok (.fields fs, rest5) => .ok (.fields ((key, v) :: fs), rest5)
              | .ok (_, _) => .error "internal"
              | .error e => .error e
            | '\x7d' :: rest4 => .ok (.fields [(key, v)], rest4)
            | _ => .error "expected comma or closing brace")
          | .ok (_, _) => .error "internal")
        | _ => .error "expected colon"
    | _ => .error "expected string key"


/-- `JSON.parse`: parse one value and require only whitespace after it. -/
def jsonParse (text : String) : Except String Json :=
  match parseJ (text.length + 2) .value text.data with
  | .error e => .error e
  | .ok (.val v, rest) =>
    if (rest.dropWhile jsonWsChar).isEmpty then .ok v
    else .error "unexpected trailing characters"
  | .ok (_, _) => .error "internal"

/-! ## `safeJsonParse` (ai.js 243-256) -/

/-- One global pass of ``.replace(/```json\n?/g, '')``-style fence stripping:
at each occurrence of `lit`, drop it together with one following newline if
present.  Structurally fuelled; since `lit` is non-empty every step consumes
at least one character, so `length + 1` fuel is always sufficient. -/
def replaceFenceAux (lit : List Char) : Nat → List Char → List Char
  | 0, l => l
  | _ + 1, [] => []
  | fuel + 1, c :: rest =>
    if leadMatch lit (c :: rest) then
      match (c :: rest).drop lit.length with
      | '\n' :: t => replaceFenceAux lit fuel t
      | after => replaceFenceAux lit fuel after
    else c :: replaceFenceAux lit fuel rest

def replaceFenceL (lit : List Char) (l : List Char) : List Char :=
  replaceFenceAux lit (l.length + 1) l

/-- The fence stripping and trim applied by `safeJsonParse` before parsing:
``text.replace(/```json\n?/g, '').replace(/```\n?/g, '').trim()``. -/
def stripCodeFences (text : String) : String :=
  ⟨jsTrimL (replaceFenceL "```".data (replaceFenceL "```json".data text.data))⟩

/-- `safeJsonParse` (ai.js 243-256): never throws; strips code fences, parses,
and falls back to the supplied default on any parse error. -/
def safeJsonParse (text : String) (fallbackValue : Json) : Json :=
  match jsonParse (stripCodeFences text) with
  | .ok v => v
  | .error _ => fallbackValue

/-! ## `parseIndeedAlternative` (jobs.js 232-261)

The embedded-blob fields are strings in the scraped data; JS truthiness on
them is emptiness, and `${result.jobkey}` stringifies a missing field to
`"undefined"` (non-string stringification is not modelled). -/

/-- jobs.js 236:
`/window\.mosaic\.providerData\["mosaic-provider-jobcards"\]\s*=\s*(\{[\s\S]*?\});/`
(no flags). -/
def mosaicPat : Pat :=
  pseq [plit "window.mosaic.providerData[\"mosaic-provider-jobcards\"]", gstar wsCls,
    plit "=", gstar wsCls,
    .group (pseq [plit "\x7b", lstar anyChar, plit "\x7d"]), plit ";"]

/-- Property access `j.name` on a parsed JSON value (`undefined` is `none`;
for duplicate keys `JSON.parse` keeps the last one). -/
def Json.getField (j : Json) (name : String) : Option Json :=
  match j with
  | .obj fields => (fields.reverse.find? fun f => f.1 == name).map (·.2)
  | _ => none

/-- A truthy string field, for the `a || b || ''` chains. -/
def jsonTruthyStr : Option Json → Option String
  | some (.str s) => if s == "" then none else some s
  | _ => none

/-- `${field}` template stringification for the string/missing cases. -/
def jsTemplateJson : Option Json → String
  | some (.str s) => s
  | _ => "undefined"

/-- `result.pubDate ? new Date(result.pubDate).toISOString() : now` for a
numeric millisecond `pubDate` (`0` is falsy). -/
def pubDateVal (o : Option Json) (now : Int) : Int :=
  match o with
  | some (.num q) => if q == 0 then now else q.floor
  | _ => now

def parseIndeedAlternative (htmlContent : String) (now : Int) : List RawJob :=
  match jsMatchFirst false mosaicPat htmlContent with
  | none => []
  | some m =>
    match m.2 with
    | none => []
    | some blob =>
      match jsonParse blob with
      | .error _ => []
      | .ok jsonData =>
        let results : List Json :=
          match ((jsonData.getField "metaData").bind
              (fun j => j.getField "mosaicProviderJobCardsModel")).bind
              (fun j => j.getField "results") with
          | some (.arr l) => l
          | _ => []
        (results.take 20).map fun result =>
          { title := (jsonTruthyStr (result.getField "displayTitle")).getD
              ((jsonTruthyStr (result.getField "title")).getD ""),
            company := (jsonTruthyStr (result.getField "company")).getD "",
            location := (jsonTruthyStr (result.getField "formattedLocation")).getD
              ((jsonTruthyStr (result.getField "location")).getD ""),
            link := (jsonTruthyStr (result.getField "thirdPartyApplyUrl")).getD
              ("https://www.indeed.com/viewjob?jk=" ++ jsTemplateJson (result.getField "jobkey")),
            descriptionSnippet := (jsonTruthyStr (result.getField "snippet")).getD
              ((jsonTruthyStr (result.getField "displaySnippet")).getD ""),
            postedDate := pubDateVal (result.getField "pubDate") now,
            source := "Indeed" }

/-! ## `parseIndeedHTML` (jobs.js 164-190) -/

/-- The card loop of `parseIndeedHTML` (jobs.js 172-182): extract each of the
first 20 card fragments and keep those whose title and company are truthy
(non-empty).  The per-card `try`/`catch` is inert because the extraction is
total. -/
def cardPathJobs (htmlContent : String) (now : Int) : List RawJob :=
  ((jsMatchAll true jobCardPat htmlContent).take 20).foldl
    (fun jobs jobCard =>
      let parsedJob := extractJobDataFromCard jobCard now
      if parsedJob.title != "" && parsedJob.company != "" then jobs ++ [parsedJob]
      else jobs)
    []

def parseIndeedHTML (htmlContent : String) (now : Int) : List RawJob :=
  let jobs := cardPathJobs htmlContent now
  if jobs.isEmpty then parseIndeedAlternative htmlContent now else jobs

/-! ## `calculateMatchScore` (jobs.js 303-347) -/

/-- The preferences payload fields read by the discovery pipeline; an absent
JS field is modelled by `""` (the source normalises fields with `|| ''` and
truthiness tests, under which `""` and `undefined` behave alike). -/
structure Preferences where
  roles : String
  techStack : String
  keywords : String
  location : String
deriving Repr, DecidableEq

def calculateMatchScore (job : RawJob) (preferences : Preferences) : Int :=
  let score : Int := 50
  let jobText := jsToLower (job.title ++ " " ++ job.company ++ " " ++ job.descriptionSnippet)
  let roles := (jsSplitComma (jsToLower preferences.roles)).map jsTrim
  let score := if roles.any (fun role => role != "" && jsIncludes jobText role) then score + 20
    else score
  let techStack := (jsSplitComma (jsToLower preferences.techStack)).map jsTrim
  let techMatches : Int :=
    ((techStack.filter fun tech => tech != "" && jsIncludes jobText tech).length : Int)
  let score := score + min (techMatches * 5) 20
  let keywords := (jsSplitComma (jsToLower preferences.keywords)).map jsTrim
  let score := score +
    5 * ((keywords.filter fun keyword => keyword != "" && jsIncludes jobText keyword).length : Int)
  let score :=
    if preferences.location != "" && job.location != "" then
      let jobLocation := jsToLower job.location
      let score :=
        if jsIncludes jobLocation ((jsSplitComma (jsToLower preferences.location)).headD "") then
          score + 10
        else score
      if jsIncludes jobLocation "remote" then score + 5 else score
    else score
  min 100 (max 0 score)

/-! ## `discoverJobsFromIndeed` (jobs.js 108-132) -/

/-- jobs.js 112-115: split `roles` on commas, trim, drop empties, take the
first three, defaulting to one generic role. -/
def splitRoles (roles : String) : List String :=
  ((jsSplitComma roles).map jsTrim).filter fun role => role != ""

def rolesToSearch (preferences : Preferences) : List String :=
  let roles := splitRoles preferences.roles
  if roles.length > 0 then roles.take 3 else ["Software Engineer"]

/-- External-effect oracle for `scrapeIndeedJobs`: the HTTP fetch of the
Indeed search page, keyed by the search parameters (role, location,
keywords); `Except.error` models a thrown error (network failure or a
non-OK response status). -/
abbrev FetchOracle := String → String → String → Except String String

def scrapeIndeedJobs (fetchPage : FetchOracle) (now : Int)
    (role location keywords : String) : Except String (List RawJob) :=
  match fetchPage role location keywords with
  | .error e => .error e
  | .ok htmlContent => .ok (parseIndeedHTML htmlContent now)

/-- The index of the first element satisfying `p`, if any. -/
def findIndexAux (p : α → Bool) : List α → Option Nat
  | [] => none
  | a :: t => if p a then some 0 else (findIndexAux p t).map (· + 1)

/-- `Array.prototype.findIndex` (`-1` when no element matches). -/
def jsFindIndex (p : α → Bool) (l : List α) : Int :=
  match findIndexAux p l with
  | some i => (i : Int)
  | none => -1

/-- jobs.js 127-129: the URL-deduplication filter
`allJobs.filter((job, index, self) => index === self.findIndex(o => o.link === job.link))`. -/
def dedupByLink (self : List RawJob) : List RawJob :=
  (self.enum.filter fun ij =>
    (ij.1 : Int) == jsFindIndex (fun otherJob => otherJob.link == ij.2.link) self).map (·.2)

/-- jobs.js 108-132: per-role scraping (a failing role is logged and
skipped), concatenation, then deduplication by link. -/
def discoverJobsFromIndeed (fetchPage : FetchOracle) (now : Int)
    (preferences : Preferences) : List RawJob :=
  let allJobs := (rolesToSearch preferences).foldl
    (fun allJobs role =>
      match scrapeIndeedJobs fetchPage now role preferences.location preferences.keywords with
      | .ok jobs => allJobs ++ jobs
      | .error _ => allJobs)
    []
  dedupByLink allJobs

/-! ## The upsert loop and the request handler (jobs.js 17-103) -/

/-- A row of the `jobs` table as written by the handler. -/
structure DbRow where
  user_id : String
  title : String
  company : String
  location : String
  link : String
  posted_date : Int
  description_snippet : String
  source : String
  match_score : Int
deriving Repr, DecidableEq

/-- The row filter of the existence check: `user_id = uid AND link = l`. -/
def dbMatches (uid link : String) (r : DbRow) : Bool :=
  r.user_id == uid && r.link == link

/-- `.select().eq(user_id).eq(link).single()`: PostgREST `.single()` yields a
row exactly when the filter selects exactly one row. -/
def selectSingleJob (db : List DbRow) (uid link : String) : Option DbRow :=
  match db.filter (dbMatches uid link) with
  | [r] => some r
  | _ => none

def mkRow (uid : String) (job : RawJob) (matchScore : Int) : DbRow :=
  { user_id := uid, title := job.title, company := job.company,
    location := job.location, link := job.link, posted_date := job.postedDate,
    description_snippet := job.descriptionSnippet, source := job.source,
    match_score := matchScore }

/-- jobs.js 61-88: for each discovered job, check for an existing
`(user, link)` row; insert with a freshly computed match score only when
absent, counting the inserts. -/
def upsertLoop (uid : String) (preferences : Preferences) :
    List RawJob → List DbRow → Nat → List DbRow × Nat
  | [], db, newJobsCount => (db, newJobsCount)
  | job :: rest, db, newJobsCount =>
    match selectSingleJob db uid job.link with
    | some _ => upsertLoop uid preferences rest db newJobsCount
    | none =>
      upsertLoop uid preferences rest
        (db ++ [mkRow uid job (calculateMatchScore job preferences)]) (newJobsCount + 1)

def upsertJobs (uid : String) (preferences : Preferences) (jobs : List RawJob)
    (db : List DbRow) : List DbRow × Nat :=
  upsertLoop uid preferences jobs db 0

/-- `Math.ceil(x / d)` for a positive integer divisor:
`⌈x / d⌉ = -⌊-x / d⌋`, and `Int` division is Euclidean division, which is
the floor for a positive divisor. -/
def jsMathCeilDiv (x d : Int) : Int := -((-x) / d)

/-- jobs.js 36-46: the per-user throttle check.  The source guard is
`if (lastFetch && lastFetch > fiveMinutesAgo)`: a missing cache entry
(`none`) and a cached timestamp of `0` are both falsy, so neither throttles.
Returns `some w` (reject, wait `w` seconds) when a truthy cached timestamp
is newer than five minutes ago, `none` (proceed) otherwise. -/
def throttleCheck (lastFetch : Option Int) (now : Int) : Option Int :=
  let fiveMinutesAgo := now - 5 * 60 * 1000
  match lastFetch with
  | some lf =>
    if lf ≠ 0 ∧ lf > fiveMinutesAgo then some (jsMathCeilDiv (lf - fiveMinutesAgo) 1000)
    else none
  | none => none

/-- `Map.get` on the in-memory request cache. -/
def cacheGet (cache : List (String × Int)) (key : String) : Option Int :=
  (cache.find? fun kv => kv.1 == key).map (·.2)

/-- `Map.set` on the in-memory request cache. -/
def cacheSet (cache : List (String × Int)) (key : String) (v : Int) : List (String × Int) :=
  if cache.any fun kv => kv.1 == key then
    cache.map fun kv => if kv.1 == key then (key, v) else kv
  else cache ++ [(key, v)]

/-- The handler's observable response (jobs.js 17-103), one constructor per
`response.status(...)` site. -/
inductive ApiResponse where
  | methodNotAllowed
  | unauthorized
  | invalidToken
  | throttled (secondsToWait : Int)
  | badRequest
  | ok (count : Nat) (total : Nat)
  | serverError
deriving Repr, DecidableEq

def ApiResponse.status : ApiResponse → Nat
  | .methodNotAllowed => 405
  | .unauthorized => 401
  | .invalidToken => 401
  | .throttled _ => 429
  | .badRequest => 400
  | .ok _ _ => 200
  | .serverError => 500

def ApiResponse.isThrottled : ApiResponse → Bool
  | .throttled _ => true
  | _ => false

/-- The server-side mutable state touched by the handler: the in-memory
throttle cache and the `jobs` table. -/
structure ServerState where
  cache : List (String × Int)
  db : List DbRow
deriving Repr, DecidableEq

/-- The incoming request.  `body` is `none` when `request.body` is absent
(destructuring it throws, which the `catch` turns into a 500);
`some none` models a body without a truthy `preferences` field. -/
structure JsRequest where
  method : String
  authorization : Option String
  body : Option (Option Preferences)
deriving Repr

/-- The handler's environment: the token-validation oracle
(`supabase.auth.getUser`), the page-fetch oracle, and the current time. -/
structure HandlerEnv where
  authUser : String → Option String
  fetchPage : FetchOracle
  now : Int

/-- The discovery endpoint handler (jobs.js 17-103). -/
def handler (env : HandlerEnv) (request : JsRequest) (st : ServerState) :
    ApiResponse × ServerState :=
  if request.method != "POST" then (.methodNotAllowed, st)
  else
    match request.authorization with
    | none => (.unauthorized, st)
    | some authHeader =>
      if !jsStartsWith authHeader "Bearer " then (.unauthorized, st)
      else
        let userToken := jsReplaceFirst authHeader "Bearer " ""
        match env.authUser userToken with
        | none => (.invalidToken, st)
        | some uid =>
          let cacheKey := "jobs_" ++ uid
          match throttleCheck (cacheGet st.cache cacheKey) env.now with
          | some secondsToWait => (.throttled secondsToWait, st)
          | none =>
            match request.body with
            | none => (.serverError, st)
            | some none => (.badRequest, st)
            | some (some preferences) =>
              let searchJobs := discoverJobsFromIndeed env.fetchPage env.now preferences
              let dbAndCount := upsertJobs uid preferences searchJobs st.db
              (.ok dbAndCount.2 searchJobs.length,
                { cache := cacheSet st.cache cacheKey env.now, db := dbAndCount.1 })

/-- Number of stored rows for a given `(user, link)` pair; the schema's
`UNIQUE(user_id, link)` constraint keeps this at most 1. -/
def jobRowCount (uid link : String) (db : List DbRow) : Nat :=
  (db.filter (dbMatches uid link)).length

/-- A concrete job used by witnesses. -/
def jobL1 : RawJob :=
  { title := "T", company := "C", location := "", link := "https://jobs.example/1",
    descriptionSnippet := "", postedDate := 0, source := "Indeed" }

/-- A concrete preferences value used by witnesses. -/
def plainPrefs : Preferences :=
  { roles := "", techStack := "", keywords := "", location := "" }

/-- A handler environment used by witnesses: one valid token, a failing
fetch oracle, clock at 100000 ms. -/
def throttleEnv : HandlerEnv :=
  { authUser := fun t => if t == "tok" then some "u1" else none,
    fetchPage := fun _ _ _ => .error "offline", now := 100000 }

/-- The same environment with the clock exactly five minutes past the
witness's cached timestamp. -/
def throttleEnvLate : HandlerEnv := { throttleEnv with now := 300001 }

/-- A well-formed discovery request for `throttleEnv`. -/
def throttleReq : JsRequest :=
  { method := "POST", authorization := some "Bearer tok", body := some (some plainPrefs) }

/-- Server state whose cache records a run for `u1` at time 1 ms. -/
def throttleState : ServerState := { cache := [("jobs_u1", 1)], db := [] }

/-- A request with a non-POST method. -/
def badMethodReq : JsRequest := { method := "GET", authorization := none, body := none }

/-- A card with a truthy title and company but no `/rc/clk` apply link. -/
def c1Html : String :=
  "<div class=\"job_seen_beacon\"><a class=\"jobTitle\" q><span r>Dev</span></a><p class=\"companyName\" y>Acme</p></div>"

/-- 301 copies of `A`. -/
def snippet301 : String := ⟨List.replicate 301 'A'⟩

/-- A card whose snippet is 301 characters long. -/
def c7Html : String :=
  "<div class=\"job_seen_beacon\"><b class=\"jobTitle\" x><span y>Dev</span></b><i class=\"companyName\" z>Acme</i><div class=\"job-snippet\" w>"
    ++ snippet301 ++ "</div></div>"

/-- A concrete preferences value whose `roles` list repeats a role. -/
def dupRolePrefs : Preferences :=
  { roles := "a,a,b,a", techStack := "", keywords := "", location := "" }

/-! # Claim theorems -/

/-- C2: `calculateMatchScore` is a pure deterministic function into `[0, 100]`,
and on the scenario preferences
(roles "Software Engineer", techStack "React,Node", keywords "remote",
location "San Francisco") and scenario posting it returns exactly 90. -/
theorem calculateMatchScore_range_and_scenario :
    (∀ (job : RawJob) (preferences : Preferences),
      0 ≤ calculateMatchScore job preferences ∧ calculateMatchScore job preferences ≤ 100) ∧
    calculateMatchScore
      { title := "Software Engineer", company := "Acme", location := "Remote",
        link := "https://www.indeed.com/rc/clk/abc",
        descriptionSnippet := "Build with React and Node, remote friendly",
        postedDate := 0, source := "Indeed" }
      { roles := "Software Engineer", techStack := "React,Node",
        keywords := "remote", location := "San Francisco" } = 90 := by
  refine ⟨fun job preferences => ?_, by decide⟩
  simp only [calculateMatchScore]
  refine ⟨le_min (by norm_num) (le_max_left 0 _), min_le_left _ _⟩

/-- C10: every score is at least the base 50: all contributions are
non-negative, so the lower clamp is unreachable. -/
theorem calculateMatchScore_ge_base (job : RawJob) (preferences : Preferences) :
    50 ≤ calculateMatchScore job preferences := by
  simp only [calculateMatchScore]
  split_ifs <;> omega

/-- C8 counterexample: with roles `"a,a,b,a"` the searched role list is
`["a", "a", "b"]` — the same role is searched twice, and the roles are the
first three entries rather than the first three distinct ones. -/
theorem rolesToSearch_duplicates :
    rolesToSearch dupRolePrefs = ["a", "a", "b"] ∧
    ¬ (rolesToSearch dupRolePrefs).Nodup := by
  decide

/-- C8 (amended): the orchestrator searches at most the first 3 roles of the
split/trimmed/non-empty role list, duplicates retained, and exactly the one
generic default role when no roles are supplied. -/
theorem rolesToSearch_spec (preferences : Preferences) :
    (rolesToSearch preferences).length ≤ 3 ∧
    (splitRoles preferences.roles = [] → rolesToSearch preferences = ["Software Engineer"]) ∧
    (splitRoles preferences.roles ≠ [] →
      rolesToSearch preferences = (splitRoles preferences.roles).take 3) := by
  unfold rolesToSearch
  cases h : splitRoles preferences.roles with
  | nil => simp [h]
  | cons a t =>
    simp only [h]
    rw [if_pos (by simp)]
    refine ⟨?_, by simp, fun _ => rfl⟩
    have h2 := List.length_take 3 (a :: t)
    omega

theorem rolesToSearch_spec_witness :
    splitRoles "" = [] ∧
    rolesToSearch { roles := "", techStack := "", keywords := "", location := "" } =
      ["Software Engineer"] ∧
    splitRoles "x,y" ≠ [] ∧
    rolesToSearch { roles := "x,y", techStack := "", keywords := "", location := "" } =
      (splitRoles "x,y").take 3 :=
  ⟨by decide,
    (rolesToSearch_spec { roles := "", techStack := "", keywords := "", location := "" }).2.1
      (by decide),
    by decide,
    (rolesToSearch_spec { roles := "x,y", techStack := "", keywords := "", location := "" }).2.2
      (by decide)⟩

/-- C9: `safeJsonParse` never throws: when the fence-stripped text parses as
JSON it returns the parsed value, and when parsing fails it returns the
supplied fallback. -/
theorem safeJsonParse_spec (text : String) (fallbackValue : Json) :
    (∀ v, jsonParse (stripCodeFences text) = .ok v →
      safeJsonParse text fallbackValue = v) ∧
    ((jsonParse (stripCodeFences text)).toOption = none →
      safeJsonParse text fallbackValue = fallbackValue) := by
  constructor
  · intro v hv
    simp only [safeJsonParse, hv]
  · intro h
    simp only [safeJsonParse]
    cases hj : jsonParse (stripCodeFences text) with
    | ok v => rw [hj] at h; simp [Except.toOption] at h
    | error e => rfl

theorem safeJsonParse_spec_witness :
    safeJsonParse "```json\n\x7b\"contacts\": []\x7d\n```" Json.null =
      Json.obj [("contacts", Json.arr [])] ∧
    safeJsonParse "this is not JSON" (Json.obj []) = Json.obj [] :=
  ⟨(safeJsonParse_spec "```json\n\x7b\"contacts\": []\x7d\n```" Json.null).1
      (Json.obj [("contacts", Json.arr [])]) (by rfl),
    (safeJsonParse_spec "this is not JSON" (Json.obj [])).2 (by rfl)⟩

/-! ### Helper lemmas for the deduplication filter -/

theorem findIndexAux_spec {p : α → Bool} :
    ∀ {l : List α} {i : Nat}, findIndexAux p l = some i →
      (∃ a, l[i]? = some a ∧ p a = true) ∧
      (∀ k b, k < i → l[k]? = some b → p b = false) := by
  intro l
  induction l with
  | nil => intro i h; simp [findIndexAux] at h
  | cons a t ih =>
    intro i h
    by_cases hpa : p a = true
    · simp only [findIndexAux, if_pos hpa, Option.some.injEq] at h
      subst h
      exact ⟨⟨a, by simp, hpa⟩, fun k b hk => absurd hk (Nat.not_lt_zero k)⟩
    · simp only [findIndexAux, if_neg hpa, Option.map_eq_some'] at h
      obtain ⟨j, hj, hji⟩ := h
      obtain ⟨⟨b, hb, hpb⟩, hmin⟩ := ih hj
      subst hji
      refine ⟨⟨b, by simpa using hb, hpb⟩, ?_⟩
      intro k c hk hc
      cases k with
      | zero =>
        simp only [List.getElem?_cons_zero, Option.some.injEq] at hc
        subst hc
        simpa using hpa
      | succ k2 =>
        simp only [List.getElem?_cons_succ] at hc
        exact hmin k2 c (by omega) hc

theorem jsFindIndex_eq_nat {p : α → Bool} {l : List α} {i : Nat}
    (h : (i : Int) = jsFindIndex p l) : findIndexAux p l = some i := by
  unfold jsFindIndex at h
  cases hf : findIndexAux p l with
  | none =>
    simp only [hf] at h
    omega
  | some j =>
    simp only [hf] at h
    have hij : i = j := by omega
    rw [hij]

theorem mem_enumFrom_spec :
    ∀ {l : List α} {n : Nat} {x : Nat × α}, x ∈ l.enumFrom n →
      n ≤ x.1 ∧ l[(x.1 - n)]? = some x.2 := by
  intro l
  induction l with
  | nil => intro n x h; simp at h
  | cons a t ih =>
    intro n x h
    rw [List.enumFrom_cons] at h
    rcases List.mem_cons.mp h with h1 | h1
    · subst h1
      refine ⟨Nat.le_refl n, ?_⟩
      simp
    · obtain ⟨h2, h3⟩ := ih h1
      refine ⟨by omega, ?_⟩
      have h4 : x.1 - n = (x.1 - (n + 1)) + 1 := by omega
      rw [h4]
      simpa using h3

theorem enumFrom_pairwise_fst_lt (l : List α) :
    ∀ n, (l.enumFrom n).Pairwise (fun a b => a.1 < b.1) := by
  induction l with
  | nil => intro n; simp
  | cons a t ih =>
    intro n
    rw [List.enumFrom_cons]
    refine List.Pairwise.cons ?_ (ih (n + 1))
    intro b hb
    have := (mem_enumFrom_spec hb).1
    omega

/-- C4: the deduplication filter keeps a subsequence of its input (relative
order preserved), no two kept postings share a link, and every kept posting
is the first occurrence of its link in the input. -/
theorem dedupByLink_spec (self : List RawJob) :
    (dedupByLink self).Sublist self ∧
    (dedupByLink self).Pairwise (fun a b => a.link ≠ b.link) ∧
    (∀ j ∈ dedupByLink self, ∃ i, self[i]? = some j ∧
      ∀ (k : Nat) (b : RawJob), k < i → self[k]? = some b → b.link ≠ j.link) := by
  refine ⟨?_, ?_, ?_⟩
  · have hs : List.Sublist
        ((self.enum.filter fun ij =>
          (ij.1 : Int) == jsFindIndex (fun otherJob => otherJob.link == ij.2.link) self).map
            Prod.snd) (self.enum.map Prod.snd) :=
      List.Sublist.map _ (List.filter_sublist _)
    have he : self.enum.map Prod.snd = self := List.enumFrom_map_snd 0 self
    rw [he] at hs
    exact hs
  · rw [dedupByLink, List.pairwise_map]
    have h0 : self.enum.Pairwise (fun a b => a.1 < b.1) := enumFrom_pairwise_fst_lt self 0
    have h1 := h0.filter
      (fun ij => (ij.1 : Int) == jsFindIndex (fun otherJob => otherJob.link == ij.2.link) self)
    refine List.Pairwise.imp_of_mem (fun ha hb hlt => ?_) h1
    rename_i x y
    intro heq
    have hx := (List.mem_filter.mp ha).2
    have hy := (List.mem_filter.mp hb).2
    have hx2 : (x.1 : Int) =
        jsFindIndex (fun otherJob => otherJob.link == x.2.link) self := eq_of_beq hx
    have hy2 : (y.1 : Int) =
        jsFindIndex (fun otherJob => otherJob.link == y.2.link) self := eq_of_beq hy
    simp only [heq] at hx2
    have hxy : (x.1 : Int) = (y.1 : Int) := hx2.trans hy2.symm
    omega
  · intro j hj
    rw [dedupByLink] at hj
    obtain ⟨ij, hmem, hsnd⟩ := List.mem_map.mp hj
    have hf := (List.mem_filter.mp hmem).2
    have he := (List.mem_filter.mp hmem).1
    have hidx : (ij.1 : Int) =
        jsFindIndex (fun otherJob => otherJob.link == ij.2.link) self := eq_of_beq hf
    have hfind := jsFindIndex_eq_nat hidx
    obtain ⟨⟨a, ha, hpa⟩, hmin⟩ := findIndexAux_spec hfind
    have henum := @mem_enumFrom_spec RawJob self 0 ij he
    refine ⟨ij.1, ?_, ?_⟩
    · rw [← hsnd]
      simpa using henum.2
    · intro k b hk hb
      have hml := hmin k b hk hb
      simp only [← hsnd]
      intro hcontra
      rw [hcontra] at hml
      simp at hml

/-! ### Helper lemmas for the upsert loop -/

theorem selectSingleJob_none_iff (db : List DbRow) (uid link : String) :
    selectSingleJob db uid link = none ↔ jobRowCount uid link db ≠ 1 := by
  unfold selectSingleJob jobRowCount
  cases h : db.filter (dbMatches uid link) with
  | nil => simp
  | cons r t =>
    cases t with
    | nil => simp
    | cons r2 t2 => simp

theorem jobRowCount_append (uid link : String) (db : List DbRow) (r : DbRow) :
    jobRowCount uid link (db ++ [r]) =
      jobRowCount uid link db + (if dbMatches uid link r then 1 else 0) := by
  unfold jobRowCount
  rw [List.filter_append, List.length_append]
  congr 1
  rw [List.filter_cons]
  split <;> simp

theorem dbMatches_mkRow (uid link : String) (job : RawJob) (score : Int) :
    dbMatches uid link (mkRow uid job score) = true ↔ job.link = link := by
  simp [dbMatches, mkRow]

theorem upsertLoop_count_preserved (uid : String) (preferences : Preferences) :
    ∀ (jobs : List RawJob) (db : List DbRow) (n : Nat) (link : String),
      jobRowCount uid link db = 1 →
      jobRowCount uid link (upsertLoop uid preferences jobs db n).1 = 1 := by
  intro jobs
  induction jobs with
  | nil => intro db n link h; simpa [upsertLoop] using h
  | cons job rest ih =>
    intro db n link h
    unfold upsertLoop
    cases hsel : selectSingleJob db uid job.link with
    | some r => exact ih db n link h
    | none =>
      apply ih
      rw [jobRowCount_append]
      have hne := (selectSingleJob_none_iff db uid job.link).mp hsel
      by_cases hm : dbMatches uid link (mkRow uid job (calculateMatchScore job preferences)) = true
      · exfalso
        have hlink : job.link = link := (dbMatches_mkRow uid link job _).mp hm
        rw [← hlink] at h
        exact hne h
      · rw [if_neg hm]
        simpa using h

theorem upsertLoop_run1 (uid : String) (preferences : Preferences) :
    ∀ (jobs : List RawJob) (db : List DbRow) (n : Nat),
      (∀ link, jobRowCount uid link db ≤ 1) →
      (∀ job ∈ jobs, jobRowCount uid job.link (upsertLoop uid preferences jobs db n).1 = 1) := by
  intro jobs
  induction jobs with
  | nil => intro db n hwf; simp
  | cons job rest ih =>
    intro db n hwf
    unfold upsertLoop
    cases hsel : selectSingleJob db uid job.link with
    | some r =>
      have hc1 : jobRowCount uid job.link db = 1 := by
        by_contra hne
        have hnone : selectSingleJob db uid job.link = none :=
          (selectSingleJob_none_iff db uid job.link).mpr hne
        rw [hnone] at hsel
        exact Option.noConfusion hsel
      intro j hj
      rcases List.mem_cons.mp hj with h1 | h1
      · subst h1
        exact upsertLoop_count_preserved uid preferences rest db n j.link hc1
      · exact ih db n hwf j h1
    | none =>
      have hne := (selectSingleJob_none_iff db uid job.link).mp hsel
      have hzero : jobRowCount uid job.link db = 0 := by
        have := hwf job.link
        omega
      have hwf2 : ∀ link,
          jobRowCount uid link
            (db ++ [mkRow uid job (calculateMatchScore job preferences)]) ≤ 1 := by
        intro link
        rw [jobRowCount_append]
        by_cases hm : dbMatches uid link (mkRow uid job (calculateMatchScore job preferences)) = true
        · have hlink : job.link = link := (dbMatches_mkRow uid link job _).mp hm
          rw [if_pos hm, ← hlink, hzero]
        · rw [if_neg hm]
          simpa using hwf link
      have hcount1 : jobRowCount uid job.link
          (db ++ [mkRow uid job (calculateMatchScore job preferences)]) = 1 := by
        rw [jobRowCount_append]
        rw [if_pos ((dbMatches_mkRow uid job.link job _).mpr rfl), hzero]
      intro j hj
      rcases List.mem_cons.mp hj with h1 | h1
      · subst h1
        exact upsertLoop_count_preserved uid preferences rest _ (n + 1) j.link hcount1
      · exact ih _ (n + 1) hwf2 j h1

theorem upsertLoop_noop (uid : String) (preferences : Preferences) :
    ∀ (jobs : List RawJob) (db : List DbRow) (n : Nat),
      (∀ job ∈ jobs, jobRowCount uid job.link db = 1) →
      upsertLoop uid preferences jobs db n = (db, n) := by
  intro jobs
  induction jobs with
  | nil => intro db n h; rfl
  | cons job rest ih =>
    intro db n h
    unfold upsertLoop
    cases hsel : selectSingleJob db uid job.link with
    | some r => exact ih db n fun j hj => h j (List.mem_cons_of_mem _ hj)
    | none =>
      exfalso
      exact (selectSingleJob_none_iff db uid job.link).mp hsel (h job (List.mem_cons_self _ _))

/-- C3: against a store with at most one row per `(user, link)` — the
schema's uniqueness invariant — re-running the upsert loop with the same
candidate list changes nothing: no inserts, all rows (hence all match
scores) unchanged, and an inserted count of 0. -/
theorem upsertJobs_idempotent (uid : String) (preferences : Preferences)
    (jobs : List RawJob) (db0 : List DbRow)
    (hwf : ∀ link, jobRowCount uid link db0 ≤ 1) :
    upsertJobs uid preferences jobs (upsertJobs uid preferences jobs db0).1 =
      ((upsertJobs uid preferences jobs db0).1, 0) := by
  unfold upsertJobs
  exact upsertLoop_noop uid preferences jobs _ 0
    (upsertLoop_run1 uid preferences jobs db0 0 hwf)

theorem upsertJobs_idempotent_witness :
    (∀ link, jobRowCount "u1" link [] ≤ 1) ∧
    upsertJobs "u1" plainPrefs [jobL1] (upsertJobs "u1" plainPrefs [jobL1] []).1 =
      ((upsertJobs "u1" plainPrefs [jobL1] []).1, 0) :=
  ⟨fun link => by simp [jobRowCount],
    upsertJobs_idempotent "u1" plainPrefs [jobL1] []
      (fun link => by simp [jobRowCount])⟩

/-! ### Throttle behaviour -/

theorem throttleCheck_within (lastFetch now : Int) (h0 : lastFetch ≠ 0)
    (h : now - lastFetch < 5 * 60 * 1000) :
    ∃ w, throttleCheck (some lastFetch) now = some w ∧ 0 < w := by
  simp only [throttleCheck]
  rw [if_pos ⟨h0, by omega⟩]
  refine ⟨_, rfl, ?_⟩
  unfold jsMathCeilDiv
  omega

theorem throttleCheck_after (lastFetch now : Int) (h : 5 * 60 * 1000 ≤ now - lastFetch) :
    throttleCheck (some lastFetch) now = none := by
  simp only [throttleCheck]
  rw [if_neg fun hc => absurd hc.2 (by omega)]

/-- C5: an authenticated discovery request strictly within five minutes of
the user's cached timestamp is rejected as throttled with a strictly
positive wait (and an unchanged state); once the five-minute window has
elapsed the throttle does not reject it.  The cached timestamp is required
to be non-zero: it is recorded from `Date.now()`, which is truthy, and the
source guard `lastFetch && ...` skips the throttle for a falsy `0`. -/
theorem handler_throttle_spec (env : HandlerEnv) (request : JsRequest) (st : ServerState)
    (authHeader uid : String) (lastFetch : Int)
    (hm : request.method = "POST")
    (ha : request.authorization = some authHeader)
    (hb : jsStartsWith authHeader "Bearer " = true)
    (hu : env.authUser (jsReplaceFirst authHeader "Bearer " "") = some uid)
    (hc : cacheGet st.cache ("jobs_" ++ uid) = some lastFetch) :
    (lastFetch ≠ 0 → env.now - lastFetch < 5 * 60 * 1000 →
      ∃ w, handler env request st = (.throttled w, st) ∧ 0 < w) ∧
    (5 * 60 * 1000 ≤ env.now - lastFetch →
      (handler env request st).1.isThrottled = false) := by
  constructor
  · intro h0 hlt
    obtain ⟨w, hw, hpos⟩ := throttleCheck_within lastFetch env.now h0 hlt
    refine ⟨w, ?_, hpos⟩
    simp only [handler, hm, ha, hb, hu, hc, hw, bne_self_eq_false, Bool.not_true,
      Bool.false_eq_true, if_false]
  · intro hge
    have hnone := throttleCheck_after lastFetch env.now hge
    simp only [handler, hm, ha, hb, hu, hc, hnone, bne_self_eq_false, Bool.not_true,
      Bool.false_eq_true, if_false]
    cases hbody : request.body with
    | none => simp [ApiResponse.isThrottled]
    | some o =>
      cases o with
      | none => simp [ApiResponse.isThrottled]
      | some preferences => simp [ApiResponse.isThrottled]

theorem handler_throttle_spec_witness :
    (∃ w, handler throttleEnv throttleReq throttleState = (.throttled w, throttleState) ∧ 0 < w) ∧
    (handler throttleEnvLate throttleReq throttleState).1.isThrottled = false :=
  ⟨(handler_throttle_spec throttleEnv throttleReq throttleState "Bearer tok" "u1" 1
      rfl rfl (by decide) (by decide) (by decide)).1 (by decide) (by decide),
    (handler_throttle_spec throttleEnvLate throttleReq throttleState "Bearer tok" "u1" 1
      rfl rfl (by decide) (by decide) (by decide)).2 (by decide)⟩

/-- C6: the throttle cache is written only by a successful (200) run — every
rejected request (405, 401, 429, 400) and every failed request (500) leaves
the cache untouched. -/
theorem handler_cache_unchanged (env : HandlerEnv) (request : JsRequest) (st : ServerState)
    (h : (handler env request st).1.status ≠ 200) :
    (handler env request st).2.cache = st.cache := by
  have key : (handler env request st).1.status = 200 ∨ (handler env request st).2 = st := by
    simp only [handler]
    repeat' first
      | exact Or.inr rfl
      | exact Or.inl rfl
      | split
  rcases key with h1 | h1
  · exact absurd h1 h
  · rw [h1]

theorem handler_cache_unchanged_witness :
    (handler throttleEnv badMethodReq throttleState).1.status ≠ 200 ∧
    (handler throttleEnv badMethodReq throttleState).2.cache = throttleState.cache :=
  ⟨by decide, handler_cache_unchanged throttleEnv badMethodReq throttleState (by decide)⟩

/-! ### The extraction filter (C1) and the snippet length (C7) -/

set_option maxRecDepth 1000000 in
set_option maxHeartbeats 4000000 in
/-- C1 counterexample: on `c1Html` the parser keeps a posting whose `link`
is empty — a record missing the apply URL is **not** discarded (the filter
checks only title and company). -/
theorem parseIndeedHTML_keeps_missing_link :
    parseIndeedHTML c1Html 0 =
      [{ title := "Dev", company := "Acme", location := "", link := "",
         descriptionSnippet := "", postedDate := 0, source := "Indeed" }] ∧
    ¬ (∀ j ∈ parseIndeedHTML c1Html 0, j.link ≠ "") := by
  decide

theorem cardPathJobs_mem (htmlContent : String) (now : Int) :
    ∀ j ∈ cardPathJobs htmlContent now, j.title ≠ "" ∧ j.company ≠ "" := by
  unfold cardPathJobs
  have main : ∀ (cards : List String) (acc : List RawJob),
      (∀ j ∈ acc, j.title ≠ "" ∧ j.company ≠ "") →
      ∀ j ∈ cards.foldl (fun jobs jobCard =>
          let parsedJob := extractJobDataFromCard jobCard now
          if parsedJob.title != "" && parsedJob.company != "" then jobs ++ [parsedJob]
          else jobs) acc,
        j.title ≠ "" ∧ j.company ≠ "" := by
    intro cards
    induction cards with
    | nil => intro acc hacc j hj; exact hacc j hj
    | cons c rest ih =>
      intro acc hacc j hj
      rw [List.foldl_cons] at hj
      refine ih _ ?_ j hj
      intro k hk
      dsimp only at hk
      by_cases hc :
          ((extractJobDataFromCard c now).title != ""
            && (extractJobDataFromCard c now).company != "") = true
      · rw [if_pos hc] at hk
        rcases List.mem_append.mp hk with h1 | h1
        · exact hacc k h1
        · have hkc : k = extractJobDataFromCard c now := by simpa using h1
          subst hkc
          simpa [Bool.and_eq_true, bne_iff_ne] using hc
      · rw [if_neg hc] at hk
        exact hacc k hk
  exact main _ [] (by simp)

/-- C1 (amended): when the card path finds postings, every posting in the
parser output has a non-empty title and a non-empty company; the apply link
is not part of the filter and may be empty. -/
theorem parseIndeedHTML_title_company_nonempty (htmlContent : String) (now : Int)
    (h : cardPathJobs htmlContent now ≠ []) :
    ∀ j ∈ parseIndeedHTML htmlContent now, j.title ≠ "" ∧ j.company ≠ "" := by
  intro j hj
  have hne : (cardPathJobs htmlContent now).isEmpty = false := by
    cases hcp : cardPathJobs htmlContent now with
    | nil => exact absurd hcp h
    | cons a t => rfl
  rw [parseIndeedHTML] at hj
  rw [hne] at hj
  simp only [Bool.false_eq_true, if_false] at hj
  exact cardPathJobs_mem htmlContent now j hj

set_option maxRecDepth 1000000 in
set_option maxHeartbeats 4000000 in
theorem parseIndeedHTML_title_company_nonempty_witness :
    cardPathJobs c1Html 0 ≠ [] ∧
    (∀ j ∈ parseIndeedHTML c1Html 0, j.title ≠ "" ∧ j.company ≠ "") :=
  ⟨by decide, parseIndeedHTML_title_company_nonempty c1Html 0 (by decide)⟩

set_option maxRecDepth 1000000 in
set_option maxHeartbeats 4000000 in
/-- C7 counterexample: on `c7Html` the parser emits a posting whose
description snippet is 301 characters long — snippets are not bounded by
300 characters. -/
theorem parseIndeedHTML_snippet_over_300 :
    ¬ (∀ j ∈ parseIndeedHTML c7Html 0, j.descriptionSnippet.length ≤ 300) := by
  decide

set_option maxRecDepth 1000000 in
set_option maxHeartbeats 4000000 in
/-- C7 (amended): the pipeline applies no truncation to the description
snippet; a posting whose snippet exceeds 300 characters reaches the output
unmodified. -/
theorem parseIndeedHTML_snippet_unbounded :
    ∃ j ∈ parseIndeedHTML c7Html 0, 300 < j.descriptionSnippet.length := by
  decide

end ApplyFlow